import Mathlib

/-!
Verification of the Kuroko runtime core against its specification.

This file gives a shallow embedding of the parts of the Kuroko sources
relevant to the claims under examination:

- src/src/obj_dict.c       : the dict class, its view iterators, dictOf,
                             and krk_dict_nth_key_fast;
- src/src/kuroko/vm.h      : thread flags, the core exception table,
                             KRK_CALL_FRAMES_MAX, and the documented
                             contracts of krk_runtimeError and krk_callValue;
- src/src/module_os.c      : the _os_system native function;
- src/unnamed/part_000     : the managed builtins source, in particular
                             list.__repr__ with its in-repr flag.

The hash table implementation (table.c) and the VM dispatch core (vm.c)
are not part of the provided sources; where an operation from those files
is needed it is modelled from the specification, and its doc comment says
so explicitly.

The file is organised as definitions first, theorems second.
-/

set_option autoImplicit false

namespace Kuroko

/-! # Definitions -/

/-- Shallow embedding of the KrkValue tagged union (value.h, per spec section 3):
none, booleans, integers, strings, the internal kwargs sentinel, and the
two-element tuples produced by the dictitems iterator.  Heap-object values not
needed by the claims are omitted. -/
inductive KrkValue where
  | none
  | bool (b : Bool)
  | int (i : Int)
  | str (s : String)
  | kwargs
  | tuple2 (a b : KrkValue)
deriving DecidableEq, Repr

/-- IS_KWARGS from value.h: recognises the internal sentinel marking
empty and tombstone hash-table slots. -/
def isKwargs : KrkValue → Bool
  | .kwargs => true
  | _ => false

/-- A hash-table slot: a key and a value.  A slot whose key is the kwargs
sentinel is an empty or tombstone slot (spec section 4.2). -/
abbrev Entry := KrkValue × KrkValue

/-- A KrkTable / KrkDict entries array, in slot order. -/
abbrev Table := List Entry

/-- A slot is live when its key is not the kwargs sentinel. -/
def liveSlot (e : Entry) : Bool := !(isKwargs e.1)

/-- Modelled from the spec: krk_tableGet (table.c is not under src).  Per
spec section 4.2, get probes for the key and reports the stored value;
the kwargs sentinel marks empty and tombstone slots and never matches a
stored key.  Slot-order probing is abstracted to first-match lookup over
the entries array. -/
def krk_tableGet (t : Table) (k : KrkValue) : Option KrkValue :=
  if isKwargs k then Option.none
  else (t.find? (fun e => e.1 == k)).map (fun e => e.2)

/-- Modelled from the spec: krk_tableSet (table.c is not under src).  Per
spec section 4.2, set overwrites the value when the key is already present
and otherwise stores the pair in a free slot (returning true iff the key
was new); hashing is abstracted so that a new pair occupies a fresh slot
after the existing ones. -/
def krk_tableSet (t : Table) (k v : KrkValue) : Table :=
  if isKwargs k then t
  else match t with
    | [] => [(k, v)]
    | e :: rest =>
      if e.1 == k then (k, v) :: rest
      else e :: krk_tableSet rest k v

/-- Modelled from the spec: krk_tableDelete (table.c is not under src).
Per spec section 4.2, deletion replaces the slot with a tombstone (kwargs
key) so that probe chains stay valid. -/
def krk_tableDelete (t : Table) (k : KrkValue) : Table :=
  if isKwargs k then t
  else match t with
    | [] => []
    | e :: rest =>
      if e.1 == k then (.kwargs, .none) :: rest
      else e :: krk_tableDelete rest k

/-- The live-entry count of a table: dict.__len__ returns entries.count,
which per spec section 4.2 is the number of stored mappings (tombstones
and empty slots excluded). -/
def tableCount (t : Table) : Nat := (t.filter liveSlot).length

/-- The live entries of a table in slot order. -/
def livePairs (t : Table) : List Entry := t.filter liveSlot

/-- The live keys of a table in slot order. -/
def liveKeys (t : Table) : List KrkValue := (livePairs t).map (fun e => e.1)

/-! ## Dict view iterators (obj_dict.c)

The three view iterators hold a reference to the dict and a slot cursor i.
Their __call__ scans forward from the cursor: it skips kwargs (empty or
tombstone) slots, yields the key / (key, value) tuple / value of the first
live slot and advances the cursor past it, and returns the iterator object
itself once the cursor has passed the last slot.  In the embedding the
entries array and the cursor are passed explicitly and the result
Option.none stands for the iterator returning itself. -/

/-- dictkeys.__call__ (obj_dict.c lines 384-395): advance over kwargs slots;
yield the key of the first live slot, or the iterator itself (modelled as
Option.none) when the capacity is exhausted. -/
def dictkeys_call (entries : Table) (i : Nat) : Nat × Option KrkValue :=
  if h : i < entries.length then
    if liveSlot entries[i] then (i + 1, some (entries[i]).1)
    else dictkeys_call entries (i + 1)
  else (i, Option.none)
termination_by entries.length - i

/-- dictitems.__call__ (obj_dict.c lines 300-314): like dictkeys.__call__,
but yields a fresh two-element tuple (key, value) of the first live slot. -/
def dictitems_call (entries : Table) (i : Nat) : Nat × Option KrkValue :=
  if h : i < entries.length then
    if liveSlot entries[i] then (i + 1, some (KrkValue.tuple2 (entries[i]).1 (entries[i]).2))
    else dictitems_call entries (i + 1)
  else (i, Option.none)
termination_by entries.length - i

/-- dictvalues.__call__ (obj_dict.c lines 450-461): like dictkeys.__call__,
but yields the value of the first live slot. -/
def dictvalues_call (entries : Table) (i : Nat) : Nat × Option KrkValue :=
  if h : i < entries.length then
    if liveSlot entries[i] then (i + 1, some (entries[i]).2)
    else dictvalues_call entries (i + 1)
  else (i, Option.none)
termination_by entries.length - i

/-- From the words of the spec: the next non-sentinel (live) slot of the
entries array at or after position i, found by walking the slots in order,
together with its position.  Used as the specification side for the
iterator __call__ theorems. -/
def specNextLive (entries : Table) (i : Nat) : Option (Nat × Entry) :=
  ((entries.drop i).findIdx? liveSlot).bind
    (fun j => (entries[i + j]?).map (fun e => (i + j, e)))

/-- Collect the keys yielded by repeatedly invoking dictkeys.__call__
starting from cursor i, until the iterator returns itself. -/
def runKeys (entries : Table) (i : Nat) : List KrkValue :=
  if h : i < entries.length then
    if liveSlot entries[i] then (entries[i]).1 :: runKeys entries (i + 1)
    else runKeys entries (i + 1)
  else []
termination_by entries.length - i

/-- Collect the (key, value) tuples yielded by repeatedly invoking
dictitems.__call__ starting from cursor i. -/
def runItems (entries : Table) (i : Nat) : List KrkValue :=
  if h : i < entries.length then
    if liveSlot entries[i] then
      KrkValue.tuple2 (entries[i]).1 (entries[i]).2 :: runItems entries (i + 1)
    else runItems entries (i + 1)
  else []
termination_by entries.length - i

/-- krk_dict_nth_key_fast inner scan (obj_dict.c lines 269-277): walk the
slots, skip kwargs slots, count live slots in found, and return the key of
the live slot whose running count equals the requested index. -/
def nthKeyScan : List Entry → Nat → Nat → KrkValue
  | [], _, _ => KrkValue.none
  | e :: rest, index, found =>
    if isKwargs e.1 then nthKeyScan rest index found
    else if found = index then e.1
    else nthKeyScan rest index (found + 1)

/-- krk_dict_nth_key_fast (obj_dict.c lines 269-277): the nth live key of
the first capacity slots of the entries array, or none when there are not
that many live keys. -/
def krk_dict_nth_key_fast (capacity : Nat) (entries : List Entry) (index : Nat) : KrkValue :=
  nthKeyScan (entries.take capacity) index 0

/-! ## Exceptions and dict methods -/

/-- The fields of struct Exceptions (vm.h lines 65-81): the complete table
of core exception types available to C code and, per the spec, to managed
code from the builtin namespace. -/
inductive ExcClass where
  | baseException
  | typeError
  | argumentError
  | indexError
  | keyError
  | attributeError
  | nameError
  | importError
  | ioError
  | valueError
  | keyboardInterrupt
  | zeroDivisionError
  | notImplementedError
  | syntaxError
  | assertionError
deriving DecidableEq, Repr

/-- The C field names of struct Exceptions (vm.h lines 65-81), in
declaration order. -/
def coreExceptionFields : List String :=
  ["baseException", "typeError", "argumentError", "indexError", "keyError",
   "attributeError", "nameError", "importError", "ioError", "valueError",
   "keyboardInterrupt", "zeroDivisionError", "notImplementedError",
   "syntaxError", "assertionError"]

/-- The managed-code class names of the core exception types, as given by
the doc comments of struct Exceptions (vm.h lines 65-81). -/
def coreExceptionNames : List String :=
  ["Exception", "TypeError", "ArgumentException", "IndexError", "KeyError",
   "AttributeError", "NameError", "ImportError", "IOError", "ValueError",
   "KeyboardInterrupt", "ZeroDivisionError", "NotImplementedError",
   "SyntaxError", "AssertionError"]

/-- dict.__getitem__ (obj_dict.c lines 88-96): look the key up in the
entries table; a missing key raises KeyError. -/
def dict_getitem (t : Table) (k : KrkValue) : Except ExcClass KrkValue :=
  match krk_tableGet t k with
  | some v => Except.ok v
  | Option.none => Except.error ExcClass.keyError

/-- dict.__setitem__ (obj_dict.c lines 98-102): store the pair in the
entries table and return the stored value. -/
def dict_setitem (t : Table) (k v : KrkValue) : Table × KrkValue :=
  (krk_tableSet t k v, v)

/-- dict.__len__ (obj_dict.c lines 122-125): the live-entry count of the
entries table. -/
def dict_len (t : Table) : Int := (tableCount t : Int)

/-- dict.setdefault (obj_dict.c lines 203-215): out starts as the supplied
default (None when absent); a successful lookup overwrites out with the
stored value, otherwise the default is inserted; out is returned. -/
def dict_setdefault (t : Table) (k : KrkValue) (deflt : Option KrkValue) :
    Table × KrkValue :=
  let out := deflt.getD KrkValue.none
  match krk_tableGet t k with
  | some stored => (t, stored)
  | Option.none => (krk_tableSet t k out, out)

/-- The key/value pair grouping of a dictOf argument vector, mirroring the
loop for (ind = 0; ind < argc; ind += 2) of krk_dict_of. -/
def pairUp : List KrkValue → List (KrkValue × KrkValue)
  | k :: v :: rest => (k, v) :: pairUp rest
  | _ => []

/-- Building a table by applying krk_tableSet to successive pairs starting
from a fresh empty table, as the krk_dict_of loop does. -/
def buildTable (pairs : List (KrkValue × KrkValue)) : Table :=
  pairs.foldl (fun t p => krk_tableSet t p.1 p.2) []

/-- krk_dict_of (obj_dict.c lines 18-28): an odd argument count raises
ArgumentError before any dict is created; an even argument vector
key,value,key,value,... produces a fresh dict filled by krk_tableSet in
argument order.  (krk_tableAdjustCapacity only pre-sizes the array and has
no observable effect in the model.) -/
def krk_dict_of (argv : List KrkValue) : Except ExcClass Table :=
  if argv.length % 2 ≠ 0 then Except.error ExcClass.argumentError
  else Except.ok (buildTable (pairUp argv))

/-- The interleaved argument vector k1,v1,...,kn,vn of a pair list. -/
def flattenPairs : List (KrkValue × KrkValue) → List KrkValue
  | [] => []
  | p :: rest => p.1 :: p.2 :: flattenPairs rest

/-- unpackKeyValuePair (obj_dict.c lines 49-59): a dict-update sequence
element must unpack to exactly two values, which are stored with
krk_tableSet; any other shape raises ValueError. -/
def unpackKeyValuePair (t : Table) (pair : KrkValue) : Except ExcClass Table :=
  match pair with
  | KrkValue.tuple2 k v => Except.ok (krk_tableSet t k v)
  | _ => Except.error ExcClass.valueError

/-- dict.__init__ (obj_dict.c lines 74-86) on one positional argument:
the fresh table starts empty and unpackKeyValueSequence folds
unpackKeyValuePair over the values yielded by iterating the argument. -/
def dict_init_seq (elems : List KrkValue) : Except ExcClass Table :=
  List.foldlM unpackKeyValuePair [] elems

/-- dict(d.items()): dict.__init__ applied to the sequence of tuples the
items view iterator of d yields. -/
def dictFromItems (d : Table) : Except ExcClass Table :=
  dict_init_seq (runItems d 0)

/-! ## Thread state, errors, and the calling convention (vm.h) -/

/-- KRK_THREAD_HAS_EXCEPTION (vm.h line 191): thread flag bit 1 shifted
left 3, the authoritative signal for an exception in flight. -/
def KRK_THREAD_HAS_EXCEPTION : Nat := 8

/-- KRK_CALL_FRAMES_MAX (vm.h lines 18-22): maximum depth of the call
stack in managed-code function calls. -/
def KRK_CALL_FRAMES_MAX : Nat := 64

/-- The exception-relevant part of KrkThreadState (vm.h lines 136-153):
the thread-local flags word and the current exception (an exception class
together with its message, standing for the exception instance). -/
structure ThreadState where
  flags : Nat
  currentException : Option (ExcClass × String)
deriving Repr, DecidableEq

/-- Whether the KRK_THREAD_HAS_EXCEPTION bit (bit 3) of the flags is set. -/
def hasExceptionFlag (t : ThreadState) : Bool := Nat.testBit t.flags 3

/-- Modelled from the spec: krk_runtimeError (vm.c is not under src).  Its
vm.h doc comment (lines 442-458) specifies the behaviour completely: the
created exception instance is attached to the current thread state, the
KRK_THREAD_HAS_EXCEPTION flag is set, and None is returned as a
convenience to C extension authors. -/
def krk_runtimeError (t : ThreadState) (cls : ExcClass) (msg : String) :
    ThreadState × KrkValue :=
  ({ flags := t.flags ||| KRK_THREAD_HAS_EXCEPTION,
     currentException := some (cls, msg) }, KrkValue.none)

/-- _os_system (module_os.c lines 171-175): exactly one string argument is
required, anything else raises TypeError via krk_runtimeError; otherwise
the exit status of the host system() call (supplied as an oracle function)
is returned as an integer. -/
def _os_system (runSystem : String → Int) (t : ThreadState) (argv : List KrkValue) :
    ThreadState × KrkValue :=
  match argv with
  | [KrkValue.str s] => (t, KrkValue.int (runSystem s))
  | _ => krk_runtimeError t ExcClass.typeError "system() expects one string argument"

/-- The call-stack view of the VM state for the calling convention: the
active frame count and thread exception state (KrkThreadState, vm.h lines
136-153) and the configurable maximumCallDepth (KrkVM, vm.h line 184). -/
structure VMCallState where
  frameCount : Nat
  maximumCallDepth : Nat
  flags : Nat
  currentException : Option (ExcClass × String)
deriving Repr, DecidableEq

/-- Whether the KRK_THREAD_HAS_EXCEPTION bit of the VM call state flags is
set. -/
def vmHasException (st : VMCallState) : Bool := Nat.testBit st.flags 3

/-- Raising an exception on the VM call state: flag set, instance stored. -/
def raiseError (st : VMCallState) (cls : ExcClass) (msg : String) : VMCallState :=
  { st with
    flags := st.flags ||| KRK_THREAD_HAS_EXCEPTION
    currentException := some (cls, msg) }

/-- Modelled from the spec: the callee variants of the calling convention
(spec section 4.6): closures, native functions, bound methods wrapping a
callable, classes (whose optional init is itself called), instances (whose
optional class-level call slot is itself called), and everything else,
which is not callable. -/
inductive Callee where
  | closure
  | native
  | boundMethod (m : Callee)
  | classObjInit (initm : Callee)
  | classObjNoInit
  | instanceCallable (callm : Callee)
  | instanceNotCallable
  | notCallable

/-- Modelled from the spec: krk_callValue (vm.c is not under src).  The
vm.h doc comment (lines 534-552) fixes the result protocol — 1: resume
the VM, a managed frame was pushed; 2: a native function ran and the
result is ready; anything else: the call failed, an exception may have
been set.  Spec section 4.6 fixes the dispatch: a closure extends the call
frame stack unless the recursion limit is hit (struct Exceptions, vm.h
lines 65-81, offers no dedicated recursion-error class, so the failure
raises the base exception); a native runs to completion; a bound method
inserts its receiver and retries on the wrapped method; a class runs its
init; an instance retries on its class call slot; anything else is a
TypeError. -/
def krk_callValue (st : VMCallState) (callee : Callee) (argCount : Nat) :
    VMCallState × Int :=
  match callee with
  | Callee.closure =>
      if st.frameCount ≥ st.maximumCallDepth then
        (raiseError st ExcClass.baseException "maximum recursion depth exceeded", 0)
      else ({ st with frameCount := st.frameCount + 1 }, 1)
  | Callee.native => (st, 2)
  | Callee.boundMethod m => krk_callValue st m (argCount + 1)
  | Callee.classObjInit initm => krk_callValue st initm (argCount + 1)
  | Callee.classObjNoInit => (st, 2)
  | Callee.instanceCallable callm => krk_callValue st callm (argCount + 1)
  | Callee.instanceNotCallable =>
      (raiseError st ExcClass.typeError "object is not callable", 0)
  | Callee.notCallable =>
      (raiseError st ExcClass.typeError "object is not callable", 0)

/-- krk_setMaximumRecursionDepth (vm.h lines 801-804): set the maximum
recursion call depth. -/
def krk_setMaximumRecursionDepth (st : VMCallState) (maxDepth : Nat) : VMCallState :=
  { st with maximumCallDepth := maxDepth }

/-- Modelled from the spec: the default maximum call depth equals the size
of the fixed call-frame array, KRK_CALL_FRAMES_MAX (vm.h line 139 keeps
the frames array to that bound; the spec gives default 64, configurable). -/
def defaultMaximumCallDepth : Nat := KRK_CALL_FRAMES_MAX

/-! ## Container __repr__ with the in-repr flag

dict.__repr__ (obj_dict.c lines 138-179) and the managed list.__repr__
(krk_builtinsSrc, part_000 lines 12-22) both follow the same protocol: if
the in-repr flag of the object is set, return the recursion placeholder
([...] for lists, \x7b...\x7d for dicts); otherwise set the flag, render
the children — skipping kwargs slots in a dict — joined by comma-space
(dict entries as key, colon-space, value), clear the flag again and return
the bracketed result.  The embedding renders a heap of container objects;
non-container children are abstracted as prim values rendering to a fixed
string, since only container repr is at issue.  The set of object indices
whose in-repr flag is set is threaded through the computation as explicit
state, and the placeholder-emission count is returned alongside. -/

/-- A value reachable from a container: an abstract non-container value
with its rendering, or a reference to a heap object. -/
inductive HVal where
  | prim (s : String)
  | ref (i : Nat)
deriving DecidableEq, Repr

/-- A heap container object: a list of elements, or a dict entries array
whose slots are either kwargs (empty/tombstone, rendered as Option.none
here) or a live key/value pair. -/
inductive HObj where
  | list (elems : List HVal)
  | dict (entries : List (Option (HVal × HVal)))
deriving DecidableEq, Repr

/-- The object heap: objects indexed by position. -/
abbrev Heap := List HObj

/-- The recursion placeholder each container emits when its in-repr flag
is already set. -/
def placeholderFor : HObj → String
  | .list _ => "[...]"
  | .dict _ => "\x7b...\x7d"

/-- The number of valid object indices whose in-repr flag is clear; the
well-foundedness measure of the repr recursion. -/
def unflaggedCount (n : Nat) (flags : List Nat) : Nat :=
  ((Finset.range n).filter (fun j => j ∉ flags)).card

/-- A pending piece of repr work: render an object, render a value, or
render the remaining elements of a list / entries of a dict (first tracks
whether a separator is due). -/
inductive Work where
  | obj (i : Nat)
  | val (v : HVal)
  | listW (first : Bool) (es : List HVal)
  | dictW (first : Bool) (en : List (Option (HVal × HVal)))
deriving Repr

/-- Structural size of a work item, the secondary measure. -/
def workSize : Work → Nat
  | .obj _ => 0
  | .val _ => 1
  | .listW _ es => 2 + es.length
  | .dictW _ en => 2 + en.length

/-- The repr computation: given the heap, the current set of flagged
(in-repr) objects and a work item, produce the rendered string, the flag
set on return, and the number of placeholder emissions.  An object whose
flag is set yields its placeholder and counts one emission; otherwise, its
flag is set while its children render and cleared (erased) on return, as
both dict.__repr__ and list.__repr__ do.  The flag-set equality guards on
the sequencing steps are provably always true (each sub-rendering restores
the flag set, see the restoration theorem) and exist only to bound the
recursion; total acceptance of this definition is the termination
argument for container repr on arbitrary, possibly cyclic heaps. -/
def reprW (h : Heap) (flags : List Nat) (w : Work) : String × List Nat × Nat :=
  match w with
  | Work.obj i =>
    if hi : i < h.length then
      if hf : flags.contains i then (placeholderFor h[i], flags, 1)
      else
        match h[i] with
        | HObj.list es =>
          let r := reprW h (i :: flags) (Work.listW true es)
          ("[" ++ r.1 ++ "]", (r.2.1).erase i, r.2.2)
        | HObj.dict en =>
          let r := reprW h (i :: flags) (Work.dictW true en)
          ("\x7b" ++ r.1 ++ "\x7d", (r.2.1).erase i, r.2.2)
    else ("", flags, 0)
  | Work.val (HVal.prim s) => (s, flags, 0)
  | Work.val (HVal.ref i) => reprW h flags (Work.obj i)
  | Work.listW _ [] => ("", flags, 0)
  | Work.listW first (v :: rest) =>
    let r1 := reprW h flags (Work.val v)
    if hg : r1.2.1 = flags then
      let r2 := reprW h flags (Work.listW false rest)
      ((if first then r1.1 else ", " ++ r1.1) ++ r2.1, r2.2.1, r1.2.2 + r2.2.2)
    else ((if first then r1.1 else ", " ++ r1.1), r1.2.1, r1.2.2)
  | Work.dictW _ [] => ("", flags, 0)
  | Work.dictW first (Option.none :: rest) => reprW h flags (Work.dictW first rest)
  | Work.dictW first (some (k, v) :: rest) =>
    let r1 := reprW h flags (Work.val k)
    if hg1 : r1.2.1 = flags then
      let r2 := reprW h flags (Work.val v)
      if hg2 : r2.2.1 = flags then
        let r3 := reprW h flags (Work.dictW false rest)
        ((if first then "" else ", ") ++ r1.1 ++ ": " ++ r2.1 ++ r3.1,
          r3.2.1, r1.2.2 + r2.2.2 + r3.2.2)
      else ((if first then "" else ", ") ++ r1.1 ++ ": " ++ r2.1, r2.2.1, r1.2.2 + r2.2.2)
    else ((if first then "" else ", ") ++ r1.1, r1.2.1, r1.2.2)
termination_by (unflaggedCount h.length flags, workSize w)
decreasing_by
  all_goals simp_wf
  · have hlt : unflaggedCount h.length (i :: flags) < unflaggedCount h.length flags := by
      have hin : i ∈ (Finset.range h.length).filter (fun j => j ∉ flags) := by
        rw [Finset.mem_filter, Finset.mem_range]
        exact ⟨hi, by simpa using hf⟩
      have hsub : (Finset.range h.length).filter (fun j => j ∉ i :: flags) ⊆
          (Finset.range h.length).filter (fun j => j ∉ flags) := by
        intro x hx
        rw [Finset.mem_filter] at hx ⊢
        exact ⟨hx.1, fun hxf => hx.2 (by simp [hxf])⟩
      have hnotin : i ∉ (Finset.range h.length).filter (fun j => j ∉ i :: flags) := by
        rw [Finset.mem_filter]
        intro hx
        exact hx.2 (by simp)
      exact Finset.card_lt_card
        (Finset.ssubset_iff_of_subset hsub |>.mpr ⟨i, hin, hnotin⟩)
    exact Prod.Lex.left _ _ hlt
  · have hlt : unflaggedCount h.length (i :: flags) < unflaggedCount h.length flags := by
      have hin : i ∈ (Finset.range h.length).filter (fun j => j ∉ flags) := by
        rw [Finset.mem_filter, Finset.mem_range]
        exact ⟨hi, by simpa using hf⟩
      have hsub : (Finset.range h.length).filter (fun j => j ∉ i :: flags) ⊆
          (Finset.range h.length).filter (fun j => j ∉ flags) := by
        intro x hx
        rw [Finset.mem_filter] at hx ⊢
        exact ⟨hx.1, fun hxf => hx.2 (by simp [hxf])⟩
      have hnotin : i ∉ (Finset.range h.length).filter (fun j => j ∉ i :: flags) := by
        rw [Finset.mem_filter]
        intro hx
        exact hx.2 (by simp)
      exact Finset.card_lt_card
        (Finset.ssubset_iff_of_subset hsub |>.mpr ⟨i, hin, hnotin⟩)
    exact Prod.Lex.left _ _ hlt
  · exact Prod.Lex.right _ (by simp only [workSize, List.length_cons]; omega)
  · exact Prod.Lex.right _ (by simp only [workSize, List.length_cons]; omega)
  · exact Prod.Lex.right _ (by simp only [workSize, List.length_cons]; omega)
  · exact Prod.Lex.right _ (by simp only [workSize, List.length_cons]; omega)
  · exact Prod.Lex.right _ (by simp only [workSize, List.length_cons]; omega)
  · exact Prod.Lex.right _ (by simp only [workSize, List.length_cons]; omega)
  · exact Prod.Lex.right _ (by simp only [workSize, List.length_cons]; omega)

/-- A heap with a single list object that contains itself once, surrounded
by arbitrary non-container values. -/
def selfListHeap (pre post : List String) : Heap :=
  [HObj.list (pre.map HVal.prim ++ HVal.ref 0 :: post.map HVal.prim)]

/-! # Theorems -/

@[simp] theorem isKwargs_kwargs : isKwargs KrkValue.kwargs = true := rfl

theorem isKwargs_iff (v : KrkValue) : isKwargs v = true ↔ v = KrkValue.kwargs := by
  cases v <;> simp [isKwargs]

@[simp] theorem krk_tableGet_nil (k : KrkValue) : krk_tableGet [] k = Option.none := by
  simp [krk_tableGet]

theorem krk_tableGet_cons (e : Entry) (t : Table) (k : KrkValue) (hk : isKwargs k = false) :
    krk_tableGet (e :: t) k = if e.1 == k then some e.2 else krk_tableGet t k := by
  simp only [krk_tableGet, hk, Bool.false_eq_true, if_false, List.find?]
  cases he : e.1 == k <;> simp [he]

theorem krk_tableSet_kwargs (t : Table) (k v : KrkValue) (hk : isKwargs k = true) :
    krk_tableSet t k v = t := by
  cases t <;> simp [krk_tableSet, hk]

/-- Reading back the key just written: set followed by get at the same
key yields the new value. -/
theorem krk_tableGet_tableSet_self (t : Table) (k v : KrkValue) (hk : isKwargs k = false) :
    krk_tableGet (krk_tableSet t k v) k = some v := by
  induction t with
  | nil =>
    rw [krk_tableSet]
    simp only [hk, Bool.false_eq_true, if_false]
    rw [krk_tableGet_cons _ _ _ hk]
    simp
  | cons e rest ih =>
    rw [krk_tableSet]
    simp only [hk, Bool.false_eq_true, if_false]
    by_cases he : e.1 = k
    · rw [if_pos (by simp [he]), krk_tableGet_cons _ _ _ hk]
      simp
    · rw [if_neg (by simp [he]), krk_tableGet_cons _ _ _ hk, if_neg (by simp [he])]
      exact ih

/-- Writing one key does not disturb reads of another key. -/
theorem krk_tableGet_tableSet_other (t : Table) (k v k2 : KrkValue)
    (hne : k2 ≠ k) :
    krk_tableGet (krk_tableSet t k v) k2 = krk_tableGet t k2 := by
  by_cases hk : isKwargs k = true
  · rw [krk_tableSet_kwargs _ _ _ hk]
  · replace hk : isKwargs k = false := by simpa using hk
    by_cases hk2 : isKwargs k2 = true
    · simp [krk_tableGet, hk2]
    · replace hk2 : isKwargs k2 = false := by simpa using hk2
      induction t with
      | nil =>
        rw [krk_tableSet]
        simp only [hk, Bool.false_eq_true, if_false]
        rw [krk_tableGet_cons _ _ _ hk2, krk_tableGet_nil]
        rw [if_neg (by simp [Ne.symm hne])]
      | cons e rest ih =>
        rw [krk_tableSet]
        simp only [hk, Bool.false_eq_true, if_false]
        by_cases he : e.1 = k
        · rw [if_pos (by simp [he]), krk_tableGet_cons _ _ _ hk2, krk_tableGet_cons _ _ _ hk2]
          rw [if_neg (by simp [Ne.symm hne]), if_neg (by rw [he]; simp [Ne.symm hne])]
        · rw [if_neg (by simp [he]), krk_tableGet_cons _ _ _ hk2, krk_tableGet_cons _ _ _ hk2]
          by_cases he2 : e.1 = k2
          · rw [if_pos (by simp [he2]), if_pos (by simp [he2])]
          · rw [if_neg (by simp [he2]), if_neg (by simp [he2])]
            exact ih

/-- Setting a key that is already present keeps the live-entry count. -/
theorem tableCount_tableSet_present (t : Table) (k v : KrkValue)
    (hpresent : (krk_tableGet t k).isSome = true) :
    tableCount (krk_tableSet t k v) = tableCount t := by
  by_cases hk : isKwargs k = true
  · simp [krk_tableGet, hk] at hpresent
  · replace hk : isKwargs k = false := by simpa using hk
    induction t with
    | nil => simp [krk_tableGet] at hpresent
    | cons e rest ih =>
      rw [krk_tableGet_cons _ _ _ hk] at hpresent
      simp only [krk_tableSet, hk, Bool.false_eq_true, if_false]
      cases he : e.1 == k with
      | true =>
        rw [if_pos (by simp [he])]
        have hek : e.1 = k := eq_of_beq he
        simp [tableCount, liveSlot, hek, hk]
      | false =>
        rw [if_neg (by simp [he])]
        rw [he] at hpresent
        simp only [Bool.false_eq_true, if_false] at hpresent
        have := ih hpresent
        simp only [tableCount, List.filter]
        cases hl : liveSlot e <;> simp_all [tableCount]

/-- Setting an absent key adds exactly one live entry. -/
theorem tableCount_tableSet_absent (t : Table) (k v : KrkValue)
    (hk : isKwargs k = false) (habsent : krk_tableGet t k = Option.none) :
    tableCount (krk_tableSet t k v) = tableCount t + 1 := by
  induction t with
  | nil => simp [krk_tableSet, hk, tableCount, liveSlot]
  | cons e rest ih =>
    rw [krk_tableGet_cons _ _ _ hk] at habsent
    simp only [krk_tableSet, hk, Bool.false_eq_true, if_false]
    cases he : e.1 == k with
    | true => simp [he] at habsent
    | false =>
      rw [if_neg (by simp [he])]
      rw [he] at habsent
      simp only [Bool.false_eq_true, if_false] at habsent
      have := ih habsent
      simp only [tableCount, List.filter]
      cases hl : liveSlot e <;> simp_all [tableCount]

theorem specNextLive_stop (entries : Table) (i : Nat) (h : ¬ i < entries.length) :
    specNextLive entries i = Option.none := by
  rw [specNextLive, List.drop_eq_nil_of_le (by omega)]
  rfl

theorem specNextLive_live (entries : Table) (i : Nat) (h : i < entries.length)
    (hl : liveSlot entries[i] = true) :
    specNextLive entries i = some (i, entries[i]) := by
  rw [specNextLive, List.drop_eq_getElem_cons h, List.findIdx?_cons]
  simp [hl, List.getElem?_eq_getElem h]

theorem specNextLive_dead (entries : Table) (i : Nat) (h : i < entries.length)
    (hl : liveSlot entries[i] = false) :
    specNextLive entries i = specNextLive entries (i + 1) := by
  rw [specNextLive, specNextLive, List.drop_eq_getElem_cons h, List.findIdx?_cons]
  simp only [hl, Bool.false_eq_true, if_false, List.findIdx?_succ]
  cases hfind : (entries.drop (i + 1)).findIdx? liveSlot with
  | none => simp [hfind]
  | some j =>
    simp only [hfind, Option.map_some', Option.some_bind]
    have hij : i + (j + 1) = i + 1 + j := by omega
    rw [hij]

theorem dictkeys_call_eq_spec (entries : Table) (i : Nat) :
    dictkeys_call entries i =
      (match specNextLive entries i with
        | some (j, e) => (j + 1, some e.1)
        | Option.none => (max i entries.length, Option.none)) := by
  rw [dictkeys_call]
  by_cases h : i < entries.length
  · rw [dif_pos h]
    by_cases hl : liveSlot entries[i] = true
    · rw [if_pos hl, specNextLive_live entries i h hl]
    · replace hl : liveSlot entries[i] = false := by simpa using hl
      rw [if_neg (by simp [hl]), specNextLive_dead entries i h hl,
        dictkeys_call_eq_spec entries (i + 1)]
      cases hnext : specNextLive entries (i + 1) with
      | none =>
        have : max (i + 1) entries.length = max i entries.length := by omega
        rw [this]
      | some p => rfl
  · rw [dif_neg h, specNextLive_stop entries i h]
    have : max i entries.length = i := by omega
    rw [this]
termination_by entries.length - i

theorem dictitems_call_eq_spec (entries : Table) (i : Nat) :
    dictitems_call entries i =
      (match specNextLive entries i with
        | some (j, e) => (j + 1, some (KrkValue.tuple2 e.1 e.2))
        | Option.none => (max i entries.length, Option.none)) := by
  rw [dictitems_call]
  by_cases h : i < entries.length
  · rw [dif_pos h]
    by_cases hl : liveSlot entries[i] = true
    · rw [if_pos hl, specNextLive_live entries i h hl]
    · replace hl : liveSlot entries[i] = false := by simpa using hl
      rw [if_neg (by simp [hl]), specNextLive_dead entries i h hl,
        dictitems_call_eq_spec entries (i + 1)]
      cases hnext : specNextLive entries (i + 1) with
      | none =>
        have : max (i + 1) entries.length = max i entries.length := by omega
        rw [this]
      | some p => rfl
  · rw [dif_neg h, specNextLive_stop entries i h]
    have : max i entries.length = i := by omega
    rw [this]
termination_by entries.length - i

theorem dictvalues_call_eq_spec (entries : Table) (i : Nat) :
    dictvalues_call entries i =
      (match specNextLive entries i with
        | some (j, e) => (j + 1, some e.2)
        | Option.none => (max i entries.length, Option.none)) := by
  rw [dictvalues_call]
  by_cases h : i < entries.length
  · rw [dif_pos h]
    by_cases hl : liveSlot entries[i] = true
    · rw [if_pos hl, specNextLive_live entries i h hl]
    · replace hl : liveSlot entries[i] = false := by simpa using hl
      rw [if_neg (by simp [hl]), specNextLive_dead entries i h hl,
        dictvalues_call_eq_spec entries (i + 1)]
      cases hnext : specNextLive entries (i + 1) with
      | none =>
        have : max (i + 1) entries.length = max i entries.length := by omega
        rw [this]
      | some p => rfl
  · rw [dif_neg h, specNextLive_stop entries i h]
    have : max i entries.length = i := by omega
    rw [this]
termination_by entries.length - i

theorem runKeys_eq_filter (entries : Table) (i : Nat) :
    runKeys entries i = ((entries.drop i).filter liveSlot).map (fun e => e.1) := by
  rw [runKeys]
  by_cases h : i < entries.length
  · rw [dif_pos h, List.drop_eq_getElem_cons h, List.filter_cons,
      runKeys_eq_filter entries (i + 1)]
    by_cases hl : liveSlot entries[i] = true
    · rw [if_pos hl]
      simp [hl]
    · replace hl : liveSlot entries[i] = false := by simpa using hl
      rw [if_neg (by simp [hl])]
      simp [hl]
  · rw [dif_neg h, List.drop_eq_nil_of_le (by omega)]
    rfl
termination_by entries.length - i

theorem runItems_eq_filter (entries : Table) (i : Nat) :
    runItems entries i =
      ((entries.drop i).filter liveSlot).map (fun e => KrkValue.tuple2 e.1 e.2) := by
  rw [runItems]
  by_cases h : i < entries.length
  · rw [dif_pos h, List.drop_eq_getElem_cons h, List.filter_cons,
      runItems_eq_filter entries (i + 1)]
    by_cases hl : liveSlot entries[i] = true
    · rw [if_pos hl]
      simp [hl]
    · replace hl : liveSlot entries[i] = false := by simpa using hl
      rw [if_neg (by simp [hl])]
      simp [hl]
  · rw [dif_neg h, List.drop_eq_nil_of_le (by omega)]
    rfl
termination_by entries.length - i

/-- Running the keys iterator is the same as repeatedly invoking
dictkeys.__call__ until it returns itself. -/
theorem runKeys_step (entries : Table) (i : Nat) :
    runKeys entries i =
      (match dictkeys_call entries i with
        | (j, some k) => k :: runKeys entries j
        | (_, Option.none) => []) := by
  rw [runKeys, dictkeys_call]
  by_cases h : i < entries.length
  · rw [dif_pos h, dif_pos h]
    by_cases hl : liveSlot entries[i] = true
    · rw [if_pos hl, if_pos hl]
    · replace hl : liveSlot entries[i] = false := by simpa using hl
      rw [if_neg (by simp [hl]), if_neg (by simp [hl]), runKeys_step entries (i + 1)]
  · rw [dif_neg h, dif_neg h]
termination_by entries.length - i

theorem nthKeyScan_eq_getD (es : List Entry) (index found : Nat) :
    nthKeyScan es index found =
      (if found ≤ index then
        ((es.filter liveSlot).map (fun e => e.1)).getD (index - found) KrkValue.none
      else KrkValue.none) := by
  induction es generalizing found with
  | nil => simp [nthKeyScan]
  | cons e rest ih =>
    rw [nthKeyScan, List.filter_cons]
    by_cases hkw : isKwargs e.1 = true
    · rw [if_pos hkw]
      have : liveSlot e = false := by simp [liveSlot, hkw]
      simp only [this, Bool.false_eq_true, if_false]
      exact ih found
    · replace hkw : isKwargs e.1 = false := by simpa using hkw
      rw [if_neg (by simp [hkw])]
      have hlive : liveSlot e = true := by simp [liveSlot, hkw]
      simp only [hlive, if_true, List.map_cons]
      by_cases heq : found = index
      · rw [if_pos heq, if_pos (by omega)]
        have : index - found = 0 := by omega
        rw [this, List.getD_cons_zero]
      · rw [if_neg heq, ih (found + 1)]
        by_cases hle : found ≤ index
        · have hlt : found < index := by omega
          rw [if_pos (by omega), if_pos hle]
          obtain ⟨m, hm⟩ : ∃ m, index - found = m + 1 := ⟨index - found - 1, by omega⟩
          rw [hm, List.getD_cons_succ]
          have : index - (found + 1) = m := by omega
          rw [this]
        · rw [if_neg (by omega), if_neg hle]

/-- C3 helper: every key yielded by the keys iterator comes from a live
slot and hence is not the kwargs sentinel. -/
theorem runKeys_count_kwargs (entries : Table) :
    (runKeys entries 0).count KrkValue.kwargs = 0 := by
  rw [runKeys_eq_filter, List.drop_zero, List.count_eq_zero]
  intro hmem
  rcases List.mem_map.mp hmem with ⟨e, he, hk⟩
  have : liveSlot e = true := List.of_mem_filter he
  rw [liveSlot, hk] at this
  simp at this

/-- C2: For every dict view iterator (keys, items, or values) over a dict,
each invocation of __call__ either yields the next non-sentinel (live) slot
of the dict in slot order — its key, a (key, value) tuple, or its value,
advancing the cursor just past that slot — or, when every slot at or after
the cursor is a kwargs sentinel slot (all entries consumed), returns the
iterator object itself (modelled as Option.none).  End of iteration is
signalled only through this returned-self sentinel; the functions are total
with no exception outcome. -/
theorem dict_iterators_call_next_or_self :
    (∀ (entries : Table) (i : Nat),
      dictkeys_call entries i =
        (match specNextLive entries i with
          | some (j, e) => (j + 1, some e.1)
          | Option.none => (max i entries.length, Option.none))) ∧
    (∀ (entries : Table) (i : Nat),
      dictitems_call entries i =
        (match specNextLive entries i with
          | some (j, e) => (j + 1, some (KrkValue.tuple2 e.1 e.2))
          | Option.none => (max i entries.length, Option.none))) ∧
    (∀ (entries : Table) (i : Nat),
      dictvalues_call entries i =
        (match specNextLive entries i with
          | some (j, e) => (j + 1, some e.2)
          | Option.none => (max i entries.length, Option.none))) :=
  ⟨dictkeys_call_eq_spec, dictitems_call_eq_spec, dictvalues_call_eq_spec⟩

/-- C3: iterating a dict visits exactly the live (non-kwargs-sentinel)
entries, in increasing slot order: the key sequence collected by driving
dictkeys.__call__ to completion is the key projection of the live slots in
slot order; that collection process is exactly the repeated invocation of
dictkeys.__call__; krk_dict_nth_key_fast indexes into the same live-key
sequence (returning none past the end); and the kwargs sentinel is never
among the yielded keys. -/
theorem dict_iteration_visits_live_slots_in_order :
    (∀ entries : Table, runKeys entries 0 = liveKeys entries) ∧
    (∀ (entries : Table) (i : Nat),
      runKeys entries i =
        (match dictkeys_call entries i with
          | (j, some k) => k :: runKeys entries j
          | (_, Option.none) => [])) ∧
    (∀ (entries : Table) (index : Nat),
      krk_dict_nth_key_fast entries.length entries index =
        (liveKeys entries).getD index KrkValue.none) ∧
    (∀ entries : Table, (runKeys entries 0).count KrkValue.kwargs = 0) := by
  refine ⟨?_, runKeys_step, ?_, runKeys_count_kwargs⟩
  · intro entries
    rw [runKeys_eq_filter, List.drop_zero]
    rfl
  · intro entries index
    rw [krk_dict_nth_key_fast, List.take_length, nthKeyScan_eq_getD,
      if_pos (Nat.zero_le index)]
    rfl

/-- A successful lookup implies the key is not the kwargs sentinel. -/
theorem krk_tableGet_some_nonKwargs (t : Table) (k w : KrkValue)
    (h : krk_tableGet t k = some w) : isKwargs k = false := by
  by_cases hk : isKwargs k = true
  · rw [krk_tableGet, if_pos hk] at h
    cases h
  · simpa using hk

/-- C6: for a dict and a key already present, dict.__setitem__ followed by
dict.__getitem__ at that key returns the newly stored value, dict.__len__
is unchanged, and __setitem__ returns the assigned value (as the C code
returns argv[2]). -/
theorem dict_setitem_updates_value_preserves_len (t : Table) (k v w : KrkValue)
    (hpresent : krk_tableGet t k = some w) :
    dict_getitem (dict_setitem t k v).1 k = Except.ok v ∧
    dict_len (dict_setitem t k v).1 = dict_len t ∧
    (dict_setitem t k v).2 = v := by
  have hk : isKwargs k = false := krk_tableGet_some_nonKwargs t k w hpresent
  refine ⟨?_, ?_, rfl⟩
  · rw [dict_getitem, dict_setitem]
    simp only
    rw [krk_tableGet_tableSet_self t k v hk]
  · rw [dict_len, dict_len, dict_setitem]
    simp only
    rw [tableCount_tableSet_present t k v (by rw [hpresent]; rfl)]

/-- C6 witness: the concrete scenario of the spec, d = {1: a, 2: b};
d[1] = c leaves d[1] = c and len(d) = 2. -/
theorem dict_setitem_updates_value_preserves_len_witness :
    dict_getitem
      (dict_setitem [(KrkValue.int 1, KrkValue.str "a"), (KrkValue.int 2, KrkValue.str "b")]
        (KrkValue.int 1) (KrkValue.str "c")).1 (KrkValue.int 1) =
      Except.ok (KrkValue.str "c") ∧
    dict_len
      (dict_setitem [(KrkValue.int 1, KrkValue.str "a"), (KrkValue.int 2, KrkValue.str "b")]
        (KrkValue.int 1) (KrkValue.str "c")).1 = 2 := by
  have h := dict_setitem_updates_value_preserves_len
    [(KrkValue.int 1, KrkValue.str "a"), (KrkValue.int 2, KrkValue.str "b")]
    (KrkValue.int 1) (KrkValue.str "c") (KrkValue.str "a") rfl
  refine ⟨h.1, ?_⟩
  rw [h.2.1]
  rfl

/-- C10: dict.setdefault returns a value that the resulting table stores at
the key; other keys are untouched; when the key is present the table is
returned unchanged together with the stored value; when the key is absent
the default (None when not supplied) is inserted and returned and the count
grows by one.  There is no error outcome, in particular no KeyError. -/
theorem dict_setdefault_contract (t : Table) (k : KrkValue) (deflt : Option KrkValue)
    (hk : isKwargs k = false) :
    krk_tableGet (dict_setdefault t k deflt).1 k = some (dict_setdefault t k deflt).2 ∧
    (∀ k2, k2 ≠ k → krk_tableGet (dict_setdefault t k deflt).1 k2 = krk_tableGet t k2) ∧
    (∀ w, krk_tableGet t k = some w → dict_setdefault t k deflt = (t, w)) ∧
    (krk_tableGet t k = Option.none →
      (dict_setdefault t k deflt).2 = deflt.getD KrkValue.none ∧
      tableCount (dict_setdefault t k deflt).1 = tableCount t + 1) := by
  cases hget : krk_tableGet t k with
  | some stored =>
    simp only [dict_setdefault, hget]
    refine ⟨trivial, fun k2 h2 => trivial, fun w hw => ?_, fun hnone => ?_⟩
    · injection hw with hws
      rw [hws]
    · exact Option.noConfusion hnone
  | none =>
    simp only [dict_setdefault, hget]
    refine ⟨krk_tableGet_tableSet_self t k _ hk,
      fun k2 h2 => krk_tableGet_tableSet_other t k _ k2 h2,
      fun w hw => Option.noConfusion hw,
      fun hnone => ⟨trivial, tableCount_tableSet_absent t k _ hk hget⟩⟩

/-- C10 witness: on {1: a}, setdefault of the present key 1 returns the
stored a and leaves the table alone; setdefault of the absent key 5 with
default z inserts and returns z, growing the count to 2. -/
theorem dict_setdefault_contract_witness :
    dict_setdefault [(KrkValue.int 1, KrkValue.str "a")] (KrkValue.int 1)
      (some (KrkValue.str "z")) = ([(KrkValue.int 1, KrkValue.str "a")], KrkValue.str "a") ∧
    (dict_setdefault [(KrkValue.int 1, KrkValue.str "a")] (KrkValue.int 5)
      (some (KrkValue.str "z"))).2 = KrkValue.str "z" ∧
    tableCount (dict_setdefault [(KrkValue.int 1, KrkValue.str "a")] (KrkValue.int 5)
      (some (KrkValue.str "z"))).1 = 2 := by
  have h1 := dict_setdefault_contract [(KrkValue.int 1, KrkValue.str "a")]
    (KrkValue.int 1) (some (KrkValue.str "z")) rfl
  have h5 := dict_setdefault_contract [(KrkValue.int 1, KrkValue.str "a")]
    (KrkValue.int 5) (some (KrkValue.str "z")) rfl
  refine ⟨h1.2.2.1 (KrkValue.str "a") rfl, ?_, ?_⟩
  · rw [(h5.2.2.2 rfl).1]
    rfl
  · rw [(h5.2.2.2 rfl).2]
    rfl

theorem buildTable_concat (pairs : List (KrkValue × KrkValue)) (p : KrkValue × KrkValue) :
    buildTable (pairs ++ [p]) = krk_tableSet (buildTable pairs) p.1 p.2 := by
  rw [buildTable, buildTable, List.foldl_append]
  rfl

/-- The mapping realised by the krk_dict_of insertion loop: the value
stored at a key is the value of the last argument pair with that key. -/
theorem krk_tableGet_buildTable (pairs : List (KrkValue × KrkValue)) (k : KrkValue)
    (hp : ∀ p ∈ pairs, isKwargs p.1 = false) (hk : isKwargs k = false) :
    krk_tableGet (buildTable pairs) k =
      ((pairs.filter (fun p => p.1 == k)).map (fun p => p.2)).getLast? := by
  induction pairs using List.reverseRecOn with
  | nil => simp [buildTable]
  | append_singleton pairs p ih =>
    rw [buildTable_concat]
    have hps : ∀ q ∈ pairs, isKwargs q.1 = false := fun q hq => hp q (by simp [hq])
    by_cases hpk : p.1 = k
    · rw [hpk, krk_tableGet_tableSet_self _ k p.2 hk, List.filter_append, List.map_append]
      have : List.filter (fun p => p.1 == k) [p] = [p] := by simp [hpk]
      rw [this, List.map_singleton, List.getLast?_concat]
    · rw [krk_tableGet_tableSet_other _ _ _ _ (fun h => hpk (h.symm)), ih hps,
        List.filter_append]
      have : List.filter (fun p => p.1 == k) [p] = [] := by simp [hpk]
      rw [this, List.append_nil]

theorem flattenPairs_length (pairs : List (KrkValue × KrkValue)) :
    (flattenPairs pairs).length = 2 * pairs.length := by
  induction pairs with
  | nil => rfl
  | cons p rest ih =>
    rw [flattenPairs]
    simp only [List.length_cons, ih]
    omega

theorem pairUp_flattenPairs (pairs : List (KrkValue × KrkValue)) :
    pairUp (flattenPairs pairs) = pairs := by
  induction pairs with
  | nil => rfl
  | cons p rest ih => rw [flattenPairs, pairUp, ih]

/-- C9: krk_dict_of (the native bound to dictOf) raises ArgumentError for
an odd number of positional arguments, producing no dict; for an even
argument vector k1,v1,...,kn,vn it returns a fresh dict built by inserting
those pairs in order, so that each key holds the value of its last
occurrence (a later duplicate overwrites an earlier one). -/
theorem krk_dict_of_contract :
    (∀ argv : List KrkValue, argv.length % 2 = 1 →
      krk_dict_of argv = Except.error ExcClass.argumentError) ∧
    (∀ pairs : List (KrkValue × KrkValue),
      krk_dict_of (flattenPairs pairs) = Except.ok (buildTable pairs)) ∧
    (∀ (pairs : List (KrkValue × KrkValue)) (k : KrkValue),
      (∀ p ∈ pairs, isKwargs p.1 = false) → isKwargs k = false →
      krk_tableGet (buildTable pairs) k =
        ((pairs.filter (fun p => p.1 == k)).map (fun p => p.2)).getLast?) := by
  refine ⟨?_, ?_, krk_tableGet_buildTable⟩
  · intro argv hodd
    rw [krk_dict_of, if_pos (by omega)]
  · intro pairs
    rw [krk_dict_of, if_neg (by rw [flattenPairs_length]; omega), pairUp_flattenPairs]

/-- C9 witness: dictOf of a single argument is an ArgumentError; dictOf of
1,a,2,b,1,c yields the dict mapping 1 to c (last duplicate wins) and
2 to b. -/
theorem krk_dict_of_contract_witness :
    krk_dict_of [KrkValue.int 1] = Except.error ExcClass.argumentError ∧
    krk_dict_of
        (flattenPairs [(KrkValue.int 1, KrkValue.str "a"), (KrkValue.int 2, KrkValue.str "b"),
          (KrkValue.int 1, KrkValue.str "c")]) =
      Except.ok (buildTable [(KrkValue.int 1, KrkValue.str "a"), (KrkValue.int 2, KrkValue.str "b"),
        (KrkValue.int 1, KrkValue.str "c")]) ∧
    krk_tableGet (buildTable [(KrkValue.int 1, KrkValue.str "a"), (KrkValue.int 2, KrkValue.str "b"),
        (KrkValue.int 1, KrkValue.str "c")]) (KrkValue.int 1) = some (KrkValue.str "c") ∧
    krk_tableGet (buildTable [(KrkValue.int 1, KrkValue.str "a"), (KrkValue.int 2, KrkValue.str "b"),
        (KrkValue.int 1, KrkValue.str "c")]) (KrkValue.int 2) = some (KrkValue.str "b") := by
  have h := krk_dict_of_contract
  refine ⟨h.1 [KrkValue.int 1] rfl, h.2.1 _, ?_, ?_⟩
  · rw [h.2.2 [(KrkValue.int 1, KrkValue.str "a"), (KrkValue.int 2, KrkValue.str "b"),
      (KrkValue.int 1, KrkValue.str "c")] (KrkValue.int 1) (by decide) rfl]
    rfl
  · rw [h.2.2 [(KrkValue.int 1, KrkValue.str "a"), (KrkValue.int 2, KrkValue.str "b"),
      (KrkValue.int 1, KrkValue.str "c")] (KrkValue.int 2) (by decide) rfl]
    rfl

theorem dict_init_seq_tuples (ps : List Entry) (t : Table) :
    List.foldlM unpackKeyValuePair t (ps.map (fun e => KrkValue.tuple2 e.1 e.2)) =
      Except.ok (ps.foldl (fun acc e => krk_tableSet acc e.1 e.2) t) := by
  induction ps generalizing t with
  | nil => rfl
  | cons e rest ih =>
    rw [List.map_cons, List.foldlM_cons, List.foldl_cons]
    exact ih (krk_tableSet t e.1 e.2)

/-- dict.__init__ on an items view always succeeds and performs exactly the
insertions of the live pairs of the source dict, in slot order. -/
theorem dictFromItems_eq (d : Table) :
    dictFromItems d = Except.ok (buildTable (livePairs d)) := by
  rw [dictFromItems, dict_init_seq, runItems_eq_filter, List.drop_zero]
  exact dict_init_seq_tuples (d.filter liveSlot) []

/-- Lookup in a table ignores tombstone and empty slots: it reads the
first matching live pair. -/
theorem krk_tableGet_eq_livePairs (d : Table) (k : KrkValue) (hk : isKwargs k = false) :
    krk_tableGet d k = ((livePairs d).find? (fun e => e.1 == k)).map (fun e => e.2) := by
  induction d with
  | nil => simp [krk_tableGet, livePairs]
  | cons e rest ih =>
    rw [krk_tableGet_cons _ _ _ hk, livePairs, List.filter_cons]
    by_cases hl : liveSlot e = true
    · rw [if_pos hl, List.find?_cons]
      cases hbe : e.1 == k
      · simp only [Bool.false_eq_true, if_false]
        rw [ih]
        rfl
      · simp
    · replace hl : liveSlot e = false := by simpa using hl
      have hekw : isKwargs e.1 = true := by
        rw [liveSlot] at hl
        simpa using hl
      have hbe : (e.1 == k) = false := by
        have h1 : e.1 = KrkValue.kwargs := (isKwargs_iff e.1).mp hekw
        have h2 : k ≠ KrkValue.kwargs := fun hkk => by rw [hkk] at hk; simp at hk
        simp [h1, Ne.symm h2]
      rw [if_neg (by simp [hbe]), hl]
      simp only [Bool.false_eq_true, if_false]
      rw [ih]
      rfl

/-- Under distinct keys, at most one pair matches: the filter collapses to
the result of find?. -/
theorem filter_key_toList (A : List Entry) (k : KrkValue)
    (hnd : (A.map (fun e => e.1)).Nodup) :
    A.filter (fun e => e.1 == k) = (A.find? (fun e => e.1 == k)).toList := by
  induction A with
  | nil => rfl
  | cons e rest ih =>
    rw [List.map_cons, List.nodup_cons] at hnd
    rw [List.filter_cons, List.find?_cons]
    cases hbe : e.1 == k with
    | false =>
      simp only [Bool.false_eq_true, if_false]
      exact ih hnd.2
    | true =>
      simp only [if_true]
      have hek : e.1 = k := eq_of_beq hbe
      have hrest : rest.filter (fun q => q.1 == k) = [] := by
        rw [List.filter_eq_nil_iff]
        intro q hq
        have hqk : q.1 ≠ k := by
          intro hqk
          exact hnd.1 (by rw [hek, ← hqk]; exact List.mem_map_of_mem _ hq)
        simp [hqk]
      rw [hrest]
      rfl

/-- The table built from pairs with fresh distinct non-sentinel keys has
exactly that many live entries. -/
theorem tableCount_buildTable (A : List Entry)
    (hp : ∀ p ∈ A, isKwargs p.1 = false) (hnd : (A.map (fun e => e.1)).Nodup) :
    tableCount (buildTable A) = A.length := by
  induction A using List.reverseRecOn with
  | nil => rfl
  | append_singleton A p ih =>
    rw [buildTable_concat]
    have hps : ∀ q ∈ A, isKwargs q.1 = false := fun q hq => hp q (by simp [hq])
    have hpk : isKwargs p.1 = false := hp p (by simp)
    have hnd2 : (A.map (fun e => e.1) ++ [p.1]).Nodup := by
      rw [List.map_append] at hnd
      simpa using hnd
    have hnotmem : p.1 ∉ A.map (fun e => e.1) := by
      have hdisj := List.disjoint_of_nodup_append hnd2
      intro hmem
      exact hdisj hmem (by simp)
    have habsent : krk_tableGet (buildTable A) p.1 = Option.none := by
      rw [krk_tableGet_buildTable A p.1 hps hpk]
      have : A.filter (fun q => q.1 == p.1) = [] := by
        rw [List.filter_eq_nil_iff]
        intro q hq
        have : q.1 ≠ p.1 := by
          intro hqp
          exact hnotmem (by rw [← hqp]; exact List.mem_map_of_mem _ hq)
        simp [this]
      rw [this]
      rfl
    rw [tableCount_tableSet_absent (buildTable A) p.1 p.2 hpk habsent,
      ih hps (List.Nodup.of_append_left hnd2)]
    simp

/-- C4: for every dict d with distinct (hashable) keys, dict.__init__
applied to the items view of d succeeds and inserts exactly the live
(key, value) pairs of d, yielding a dict equal to d as a mapping: same
live-entry count and the same lookup result at every key.  (Equality of
dicts is mapping equality; the managed equality operator lives in value.c,
which is not under src, and the spec asserts dict(d.items()) == d.) -/
theorem dict_from_items_eq_original (d : Table) (hnd : (liveKeys d).Nodup) :
    dictFromItems d = Except.ok (buildTable (livePairs d)) ∧
    tableCount (buildTable (livePairs d)) = tableCount d ∧
    (∀ k, krk_tableGet (buildTable (livePairs d)) k = krk_tableGet d k) := by
  have hp : ∀ p ∈ livePairs d, isKwargs p.1 = false := by
    intro p hpm
    have hl : liveSlot p = true := List.of_mem_filter hpm
    rw [liveSlot] at hl
    simpa using hl
  have hndk : ((livePairs d).map (fun e => e.1)).Nodup := hnd
  refine ⟨dictFromItems_eq d, ?_, ?_⟩
  · rw [tableCount_buildTable _ hp hndk]
    rfl
  · intro k
    by_cases hk : isKwargs k = true
    · rw [krk_tableGet, if_pos hk, krk_tableGet, if_pos hk]
    · replace hk : isKwargs k = false := by simpa using hk
      rw [krk_tableGet_buildTable _ _ hp hk, krk_tableGet_eq_livePairs d k hk,
        filter_key_toList _ _ hndk]
      cases hf : (livePairs d).find? (fun e => e.1 == k) <;> simp [hf]

/-- C4 witness: the dict with entries 1: a, a tombstone slot, and 2: b
round-trips through its items view, preserving count and lookups. -/
theorem dict_from_items_eq_original_witness :
    dictFromItems [(KrkValue.int 1, KrkValue.str "a"), (KrkValue.kwargs, KrkValue.none),
        (KrkValue.int 2, KrkValue.str "b")] =
      Except.ok (buildTable (livePairs [(KrkValue.int 1, KrkValue.str "a"),
        (KrkValue.kwargs, KrkValue.none), (KrkValue.int 2, KrkValue.str "b")])) ∧
    tableCount (buildTable (livePairs [(KrkValue.int 1, KrkValue.str "a"),
        (KrkValue.kwargs, KrkValue.none), (KrkValue.int 2, KrkValue.str "b")])) =
      tableCount [(KrkValue.int 1, KrkValue.str "a"), (KrkValue.kwargs, KrkValue.none),
        (KrkValue.int 2, KrkValue.str "b")] ∧
    krk_tableGet (buildTable (livePairs [(KrkValue.int 1, KrkValue.str "a"),
        (KrkValue.kwargs, KrkValue.none), (KrkValue.int 2, KrkValue.str "b")]))
        (KrkValue.int 2) =
      krk_tableGet [(KrkValue.int 1, KrkValue.str "a"), (KrkValue.kwargs, KrkValue.none),
        (KrkValue.int 2, KrkValue.str "b")] (KrkValue.int 2) := by
  have h := dict_from_items_eq_original
    [(KrkValue.int 1, KrkValue.str "a"), (KrkValue.kwargs, KrkValue.none),
      (KrkValue.int 2, KrkValue.str "b")] (by decide)
  exact ⟨h.1, h.2.1, h.2.2 (KrkValue.int 2)⟩

/-- Setting the HAS_EXCEPTION bit by or-ing the flag constant always
leaves bit 3 set. -/
theorem testBit3_or_HAS_EXCEPTION (n : Nat) :
    Nat.testBit (n ||| KRK_THREAD_HAS_EXCEPTION) 3 = true := by
  rw [KRK_THREAD_HAS_EXCEPTION, Nat.testBit_or]
  have h8 : Nat.testBit 8 3 = true := by decide
  rw [h8, Bool.or_true]

/-- The full contract of krk_runtimeError as documented in vm.h: the flag
is set, the exception instance is stored, none is returned. -/
theorem krk_runtimeError_spec (t : ThreadState) (cls : ExcClass) (msg : String) :
    (krk_runtimeError t cls msg).2 = KrkValue.none ∧
    hasExceptionFlag (krk_runtimeError t cls msg).1 = true ∧
    (krk_runtimeError t cls msg).1.currentException = some (cls, msg) :=
  ⟨rfl, testBit3_or_HAS_EXCEPTION t.flags, rfl⟩

/-- C1: a failing native function sets the current thread exception state
and returns the marker value none.  krk_runtimeError always sets the
KRK_THREAD_HAS_EXCEPTION flag, stores the created exception instance on
the thread, and returns none; consequently _os_system, whose only failure
path is krk_runtimeError on an invalid argument vector, either receives
one string argument or returns none with the flag set and an exception
instance stored. -/
theorem native_failure_sets_exception_and_returns_none :
    (∀ (t : ThreadState) (cls : ExcClass) (msg : String),
      (krk_runtimeError t cls msg).2 = KrkValue.none ∧
      hasExceptionFlag (krk_runtimeError t cls msg).1 = true ∧
      (krk_runtimeError t cls msg).1.currentException = some (cls, msg)) ∧
    (∀ (runSystem : String → Int) (t : ThreadState) (argv : List KrkValue),
      (∃ s, argv = [KrkValue.str s]) ∨
      ((_os_system runSystem t argv).2 = KrkValue.none ∧
       hasExceptionFlag (_os_system runSystem t argv).1 = true ∧
       ((_os_system runSystem t argv).1.currentException).isSome = true)) := by
  refine ⟨krk_runtimeError_spec, ?_⟩
  intro runSystem t argv
  have herr : ∀ msg : String,
      (krk_runtimeError t ExcClass.typeError msg).2 = KrkValue.none ∧
      hasExceptionFlag (krk_runtimeError t ExcClass.typeError msg).1 = true ∧
      ((krk_runtimeError t ExcClass.typeError msg).1.currentException).isSome = true := by
    intro msg
    obtain ⟨h1, h2, h3⟩ := krk_runtimeError_spec t ExcClass.typeError msg
    refine ⟨h1, h2, ?_⟩
    rw [h3]
    rfl
  cases argv with
  | nil => exact Or.inr (herr _)
  | cons v rest =>
    cases rest with
    | nil =>
      cases v with
      | str s => exact Or.inl ⟨s, rfl⟩
      | none => exact Or.inr (herr _)
      | bool b => exact Or.inr (herr _)
      | int i => exact Or.inr (herr _)
      | kwargs => exact Or.inr (herr _)
      | tuple2 a b => exact Or.inr (herr _)
    | cons v2 rest2 =>
      cases v with
      | str s => exact Or.inr (herr _)
      | none => exact Or.inr (herr _)
      | bool b => exact Or.inr (herr _)
      | int i => exact Or.inr (herr _)
      | kwargs => exact Or.inr (herr _)
      | tuple2 a b => exact Or.inr (herr _)

/-- C8: for every callee and argument count, krk_callValue has exactly one
of three outcomes: 1 with a new managed frame pushed (resume the VM), 2
with the state untouched (a native ran, the result is ready), or 0 with no
frame pushed and the thread exception state set (the call failed). -/
theorem krk_callValue_three_outcomes (st : VMCallState) (callee : Callee) (argCount : Nat) :
    ((krk_callValue st callee argCount).2 = 1 ∧
      (krk_callValue st callee argCount).1 = { st with frameCount := st.frameCount + 1 }) ∨
    ((krk_callValue st callee argCount).2 = 2 ∧
      (krk_callValue st callee argCount).1 = st) ∨
    ((krk_callValue st callee argCount).2 = 0 ∧
      (krk_callValue st callee argCount).1.frameCount = st.frameCount ∧
      vmHasException (krk_callValue st callee argCount).1 = true) := by
  induction callee generalizing argCount with
  | closure =>
    rw [krk_callValue]
    by_cases h : st.frameCount ≥ st.maximumCallDepth
    · rw [if_pos h]
      exact Or.inr (Or.inr ⟨rfl, rfl, testBit3_or_HAS_EXCEPTION st.flags⟩)
    · rw [if_neg h]
      exact Or.inl ⟨rfl, rfl⟩
  | native => exact Or.inr (Or.inl ⟨rfl, rfl⟩)
  | boundMethod m ih =>
    rw [krk_callValue]
    exact ih (argCount + 1)
  | classObjInit initm ih =>
    rw [krk_callValue]
    exact ih (argCount + 1)
  | classObjNoInit => exact Or.inr (Or.inl ⟨rfl, rfl⟩)
  | instanceCallable callm ih =>
    rw [krk_callValue]
    exact ih (argCount + 1)
  | instanceNotCallable =>
    exact Or.inr (Or.inr ⟨rfl, rfl, testBit3_or_HAS_EXCEPTION st.flags⟩)
  | notCallable =>
    exact Or.inr (Or.inr ⟨rfl, rfl, testBit3_or_HAS_EXCEPTION st.flags⟩)

/-- C7 counterexample: the claim names RecursionError, but the complete
table of core exception types (struct Exceptions, vm.h lines 65-81)
contains no recursion-error class, neither as a C field nor under the
managed names of its doc comments; at the concrete depth-limit call
(frameCount = maximumCallDepth = 64), the exception raised by the
modelled krk_callValue is the base Exception class, not a RecursionError. -/
theorem no_recursionError_in_core_exceptions :
    coreExceptionFields.contains "recursionError" = false ∧
    coreExceptionNames.contains "RecursionError" = false ∧
    (krk_callValue
        { frameCount := 64, maximumCallDepth := 64, flags := 0, currentException := Option.none }
        Callee.closure 0).1.currentException =
      some (ExcClass.baseException, "maximum recursion depth exceeded") := by
  refine ⟨by decide, by decide, ?_⟩
  rw [krk_callValue]
  rfl

/-- C7 (amended): the per-thread call-frame stack has a fixed bounded
depth whose compile-time bound KRK_CALL_FRAMES_MAX and default
maximumCallDepth are 64, configurable through
krk_setMaximumRecursionDepth; a closure call at or beyond the maximum
recursion depth fails — no frame is pushed, the call reports failure and
the thread exception state is set — but the raised exception is the base
Exception: no RecursionError class exists among the core exception
types. -/
theorem call_depth_bounded_raises_exception (st : VMCallState) (argCount : Nat)
    (hfull : st.frameCount ≥ st.maximumCallDepth) :
    KRK_CALL_FRAMES_MAX = 64 ∧
    defaultMaximumCallDepth = 64 ∧
    (∀ (st2 : VMCallState) (d : Nat),
      (krk_setMaximumRecursionDepth st2 d).maximumCallDepth = d) ∧
    (krk_callValue st Callee.closure argCount).2 = 0 ∧
    (krk_callValue st Callee.closure argCount).1.frameCount = st.frameCount ∧
    vmHasException (krk_callValue st Callee.closure argCount).1 = true ∧
    (krk_callValue st Callee.closure argCount).1.currentException =
      some (ExcClass.baseException, "maximum recursion depth exceeded") := by
  rw [krk_callValue, if_pos hfull]
  exact ⟨rfl, rfl, fun st2 d => rfl, rfl, rfl, testBit3_or_HAS_EXCEPTION st.flags, rfl⟩

/-- C7 witness: at the default depth 64 with 64 frames active, a closure
call fails with the exception state set and no frame pushed. -/
theorem call_depth_bounded_raises_exception_witness :
    (krk_callValue
        { frameCount := 64, maximumCallDepth := 64, flags := 0, currentException := Option.none }
        Callee.closure 0).2 = 0 ∧
    (krk_callValue
        { frameCount := 64, maximumCallDepth := 64, flags := 0, currentException := Option.none }
        Callee.closure 0).1.frameCount = 64 := by
  have h := call_depth_bounded_raises_exception
    { frameCount := 64, maximumCallDepth := 64, flags := 0, currentException := Option.none }
    0 (le_refl 64)
  exact ⟨h.2.2.2.1, h.2.2.2.2.1⟩

/-- Every repr rendering restores the flag set it was invoked with: the
in-repr flag an object sets on entry is cleared again on normal return. -/
theorem reprW_flags_restored (h : Heap) (flags : List Nat) (w : Work) :
    (reprW h flags w).2.1 = flags := by
  induction flags, w using reprW.induct h with
  | case1 flags i hi hflag =>
    rw [reprW, dif_pos hi, dif_pos hflag]
  | case2 flags i hi hflag es heq ih =>
    rw [reprW, dif_pos hi, dif_neg hflag, heq]
    simp only
    rw [ih, List.erase_cons_head]
  | case3 flags i hi hflag en heq ih =>
    rw [reprW, dif_pos hi, dif_neg hflag, heq]
    simp only
    rw [ih, List.erase_cons_head]
  | case4 flags i hi =>
    rw [reprW, dif_neg hi]
  | case5 flags s =>
    rw [reprW]
  | case6 flags i ih =>
    rw [reprW]
    exact ih
  | case7 flags first =>
    rw [reprW]
  | case8 flags first v rest r1 hg ih2 ih1 =>
    rw [reprW, dif_pos hg]
    exact ih1
  | case9 flags first v rest r1 hg ih1 =>
    exact absurd ih1 hg
  | case10 flags first =>
    rw [reprW]
  | case11 flags first rest ih =>
    rw [reprW]
    exact ih
  | case12 flags first k v rest r1 hg1 r2 hg2 ih3 ih2 ih1 =>
    rw [reprW, dif_pos hg1, dif_pos hg2]
    exact ih1
  | case13 flags first k v rest r1 hg1 r2 hg2 ih2 ih1 =>
    exact absurd ih1 hg2
  | case14 flags first k v rest r1 hg1 ih1 =>
    exact absurd ih1 hg1

theorem reprW_val_prim (h : Heap) (flags : List Nat) (s : String) :
    reprW h flags (Work.val (HVal.prim s)) = (s, flags, 0) := by
  rw [reprW]

theorem reprW_val_ref (h : Heap) (flags : List Nat) (i : Nat) :
    reprW h flags (Work.val (HVal.ref i)) = reprW h flags (Work.obj i) := by
  conv_lhs => rw [reprW]

theorem reprW_listW_nil (h : Heap) (flags : List Nat) (first : Bool) :
    reprW h flags (Work.listW first []) = ("", flags, 0) := by
  rw [reprW]

theorem reprW_dictW_nil (h : Heap) (flags : List Nat) (first : Bool) :
    reprW h flags (Work.dictW first []) = ("", flags, 0) := by
  rw [reprW]

theorem reprW_dictW_none (h : Heap) (flags : List Nat) (first : Bool)
    (rest : List (Option (HVal × HVal))) :
    reprW h flags (Work.dictW first (Option.none :: rest)) =
      reprW h flags (Work.dictW first rest) := by
  rw [reprW]

/-- An object whose in-repr flag is set renders as its placeholder, with
one placeholder emission counted. -/
theorem reprW_obj_flagged (h : Heap) (flags : List Nat) (i : Nat)
    (hi : i < h.length) (hflag : flags.contains i = true) :
    reprW h flags (Work.obj i) = (placeholderFor h[i], flags, 1) := by
  rw [reprW, dif_pos hi, dif_pos hflag]

/-- An unflagged list object renders its elements with its own flag set,
and the flag set is restored on return. -/
theorem reprW_obj_list (h : Heap) (flags : List Nat) (i : Nat) (es : List HVal)
    (hi : i < h.length) (hflag : flags.contains i = false)
    (heq : h[i] = HObj.list es) :
    reprW h flags (Work.obj i) =
      ("[" ++ (reprW h (i :: flags) (Work.listW true es)).1 ++ "]", flags,
        (reprW h (i :: flags) (Work.listW true es)).2.2) := by
  rw [reprW, dif_pos hi, dif_neg (by rw [hflag]; simp), heq]
  simp only
  rw [reprW_flags_restored, List.erase_cons_head]

/-- An unflagged dict object renders its live entries with its own flag
set, and the flag set is restored on return. -/
theorem reprW_obj_dict (h : Heap) (flags : List Nat) (i : Nat)
    (en : List (Option (HVal × HVal)))
    (hi : i < h.length) (hflag : flags.contains i = false)
    (heq : h[i] = HObj.dict en) :
    reprW h flags (Work.obj i) =
      ("\x7b" ++ (reprW h (i :: flags) (Work.dictW true en)).1 ++ "\x7d", flags,
        (reprW h (i :: flags) (Work.dictW true en)).2.2) := by
  rw [reprW, dif_pos hi, dif_neg (by rw [hflag]; simp), heq]
  simp only
  rw [reprW_flags_restored, List.erase_cons_head]

/-- The sequencing of a list rendering, with the always-true flag guards
discharged by the restoration theorem. -/
theorem reprW_listW_cons (h : Heap) (flags : List Nat) (first : Bool)
    (v : HVal) (rest : List HVal) :
    reprW h flags (Work.listW first (v :: rest)) =
      ((if first then (reprW h flags (Work.val v)).1
          else ", " ++ (reprW h flags (Work.val v)).1)
          ++ (reprW h flags (Work.listW false rest)).1,
        flags,
        (reprW h flags (Work.val v)).2.2 + (reprW h flags (Work.listW false rest)).2.2) := by
  rw [reprW, dif_pos (reprW_flags_restored h flags (Work.val v))]
  simp only
  rw [reprW_flags_restored h flags (Work.listW false rest)]

/-- The sequencing of a live dict entry rendering, with the always-true
flag guards discharged by the restoration theorem. -/
theorem reprW_dictW_some (h : Heap) (flags : List Nat) (first : Bool)
    (k v : HVal) (rest : List (Option (HVal × HVal))) :
    reprW h flags (Work.dictW first (some (k, v) :: rest)) =
      ((if first then "" else ", ") ++ (reprW h flags (Work.val k)).1 ++ ": "
          ++ (reprW h flags (Work.val v)).1 ++ (reprW h flags (Work.dictW false rest)).1,
        flags,
        (reprW h flags (Work.val k)).2.2 + (reprW h flags (Work.val v)).2.2
          + (reprW h flags (Work.dictW false rest)).2.2) := by
  rw [reprW, dif_pos (reprW_flags_restored h flags (Work.val k)),
    dif_pos (reprW_flags_restored h flags (Work.val v))]
  simp only
  rw [reprW_flags_restored h flags (Work.dictW false rest)]

/-- Rendering non-container values emits no placeholder. -/
theorem reprW_prim_list_count (h : Heap) (flags : List Nat) (ps : List String)
    (first : Bool) :
    (reprW h flags (Work.listW first (ps.map HVal.prim))).2.2 = 0 := by
  induction ps generalizing first with
  | nil =>
    rw [List.map_nil, reprW_listW_nil]
  | cons s rest ih =>
    rw [List.map_cons, reprW_listW_cons]
    simp only
    rw [reprW_val_prim, ih false]

/-- A list whose elements are non-container values except for a single
reference to an object whose in-repr flag is set emits the placeholder
exactly once. -/
theorem reprW_selfref_list_count (h : Heap) (flags : List Nat) (i : Nat)
    (pre post : List String) (first : Bool)
    (hi : i < h.length) (hflag : flags.contains i = true) :
    (reprW h flags
      (Work.listW first (pre.map HVal.prim ++ HVal.ref i :: post.map HVal.prim))).2.2 = 1 := by
  induction pre generalizing first with
  | nil =>
    rw [List.map_nil, List.nil_append, reprW_listW_cons]
    simp only
    rw [reprW_val_ref, reprW_obj_flagged h flags i hi hflag,
      reprW_prim_list_count h flags post false]
  | cons s pres ih =>
    rw [List.map_cons, List.cons_append, reprW_listW_cons]
    simp only
    rw [reprW_val_prim, ih false]

/-- The one-self-reference list family: rendering the object that contains
itself once (among arbitrary non-container values) terminates with the
flag set fully restored and exactly one placeholder emitted. -/
theorem reprW_selfListHeap (pre post : List String) :
    (reprW (selfListHeap pre post) [] (Work.obj 0)).2 = ([], 1) := by
  have hi : 0 < (selfListHeap pre post).length := by
    rw [selfListHeap]
    simp
  have heq : (selfListHeap pre post)[0] =
      HObj.list (pre.map HVal.prim ++ HVal.ref 0 :: post.map HVal.prim) := rfl
  rw [reprW_obj_list (selfListHeap pre post) [] 0
    (pre.map HVal.prim ++ HVal.ref 0 :: post.map HVal.prim) hi rfl heq]
  simp only
  rw [reprW_selfref_list_count (selfListHeap pre post) [0] 0 pre post true hi rfl]

/-- The directly self-referential list renders as a bracketed placeholder
with the flags restored and one emission. -/
theorem reprW_self_list_concrete :
    reprW [HObj.list [HVal.ref 0]] [] (Work.obj 0) = ("[[...]]", [], 1) := by
  rw [reprW_obj_list [HObj.list [HVal.ref 0]] [] 0 [HVal.ref 0] (by simp) rfl rfl]
  rw [reprW_listW_cons, reprW_val_ref,
    reprW_obj_flagged [HObj.list [HVal.ref 0]] [0] 0 (by simp) rfl,
    reprW_listW_nil]
  rfl

/-- The directly self-referential dict (with a leading tombstone slot
skipped) renders as a braced placeholder entry with one emission. -/
theorem reprW_self_dict_concrete :
    reprW [HObj.dict [Option.none, some (HVal.prim "1", HVal.ref 0)]] [] (Work.obj 0) =
      ("\x7b1: \x7b...\x7d\x7d", [], 1) := by
  rw [reprW_obj_dict [HObj.dict [Option.none, some (HVal.prim "1", HVal.ref 0)]] [] 0
    [Option.none, some (HVal.prim "1", HVal.ref 0)] (by simp) rfl rfl]
  rw [reprW_dictW_none, reprW_dictW_some, reprW_val_prim, reprW_val_ref,
    reprW_obj_flagged [HObj.dict [Option.none, some (HVal.prim "1", HVal.ref 0)]] [0] 0
      (by simp) rfl,
    reprW_dictW_nil]
  rfl

/-- A two-object cycle (a list holding a dict holding the list) emits the
placeholder exactly once, at the point where the cycle closes. -/
theorem reprW_cycle_pair_concrete :
    reprW [HObj.list [HVal.ref 1], HObj.dict [some (HVal.prim "k", HVal.ref 0)]] []
      (Work.obj 0) = ("[\x7bk: [...]\x7d]", [], 1) := by
  rw [reprW_obj_list [HObj.list [HVal.ref 1], HObj.dict [some (HVal.prim "k", HVal.ref 0)]]
    [] 0 [HVal.ref 1] (by simp) rfl rfl]
  rw [reprW_listW_cons, reprW_val_ref]
  rw [reprW_obj_dict [HObj.list [HVal.ref 1], HObj.dict [some (HVal.prim "k", HVal.ref 0)]]
    [0] 1 [some (HVal.prim "k", HVal.ref 0)] (by simp) rfl rfl]
  rw [reprW_dictW_some, reprW_val_prim, reprW_val_ref]
  rw [reprW_obj_flagged [HObj.list [HVal.ref 1], HObj.dict [some (HVal.prim "k", HVal.ref 0)]]
    [1, 0] 0 (by simp) rfl]
  rw [reprW_dictW_nil, reprW_listW_nil]
  rfl

/-- C5: container __repr__ on self-referential structures terminates (the
rendering is a total function over arbitrary heaps, cycles included),
emits the recursion placeholder — [...] for lists, braces-ellipsis for
dicts — exactly once at the point of recursion, and restores the in-repr
flag state on normal return: the flag set after any rendering equals the
flag set before it; every list containing itself once among non-container
values renders with flags fully cleared and exactly one placeholder
emission; the directly self-referential list renders as the placeholder in
brackets exactly once, and likewise for a self-referential dict and for a
two-object list/dict cycle. -/
theorem repr_self_reference_placeholder_once :
    (∀ (h : Heap) (flags : List Nat) (w : Work), (reprW h flags w).2.1 = flags) ∧
    (∀ pre post : List String,
      (reprW (selfListHeap pre post) [] (Work.obj 0)).2 = ([], 1)) ∧
    reprW [HObj.list [HVal.ref 0]] [] (Work.obj 0) = ("[[...]]", [], 1) ∧
    reprW [HObj.dict [Option.none, some (HVal.prim "1", HVal.ref 0)]] [] (Work.obj 0) =
      ("\x7b1: \x7b...\x7d\x7d", [], 1) ∧
    reprW [HObj.list [HVal.ref 1], HObj.dict [some (HVal.prim "k", HVal.ref 0)]] []
      (Work.obj 0) = ("[\x7bk: [...]\x7d]", [], 1) :=
  ⟨reprW_flags_restored, reprW_selfListHeap, reprW_self_list_concrete,
    reprW_self_dict_concrete, reprW_cycle_pair_concrete⟩

end Kuroko
